import Mathlib

/-!
Shallow embedding of the two entry points of the repository:
`src/api/daily_updater.py` (batch updater `atualizar_playlists`) and
`src/api/sugerir_playlists.py.py` (FastAPI endpoint `sugerir_playlists`).

The upstream search library (`ChannelsSearch`, `PlaylistsSearch` from
youtubesearchpython) is modelled as an oracle: a pair of functions from
query string and limit to the list of results the library would return.
Dictionary accesses that can raise in Python (`p['thumbnails'][0]['url']`)
are modelled with `Option`: `none` is the run aborting with an exception.
-/

namespace Fxsfzx

/-- Upstream thumbnail object: we model the single accessed key `url`. -/
structure Thumbnail where
  url : String
deriving DecidableEq, Repr

/-- Upstream channel search result: the code accesses only `title`. -/
structure ChannelResult where
  title : String
deriving DecidableEq, Repr

/-- Upstream playlist search result: the code accesses `title`, `link`
and `thumbnails`. -/
structure PlaylistResult where
  title : String
  link : String
  thumbnails : List Thumbnail
deriving DecidableEq, Repr

/-- The record both entry points build for each playlist: exactly the four
keys `titulo`, `link`, `thumbnail`, `canal` of the Python dict literal. -/
structure PlaylistRecord where
  titulo : String
  link : String
  thumbnail : String
  canal : String
deriving DecidableEq, Repr

/-- The upstream search interface: `channelsSearch q n` models
`ChannelsSearch(q, limit=n).result()['result']` and `playlistsSearch q n`
models `PlaylistsSearch(q, limit=n).result()['result']`. -/
structure SearchOracle where
  channelsSearch : String → Nat → List ChannelResult
  playlistsSearch : String → Nat → List PlaylistResult

/-- The hard-coded mapping `categorias_canais`, identical in both files. -/
def categorias_canais : List (String × List String) :=
  [("Inteligência Artificial", ["Canal AI", "AI News"]),
   ("Marketing Digital", ["Marketing Total", "Growth Hacker"])]

/-- Building one playlist dict:
`{'titulo': p['title'], 'link': p['link'],
  'thumbnail': p['thumbnails'][0]['url'], 'canal': nome_canal}`.
The unguarded index `[0]` fails (`none`) when `thumbnails` is empty. -/
def mkRecord (nome_canal : String) (p : PlaylistResult) : Option PlaylistRecord :=
  match p.thumbnails with
  | [] => none
  | t :: _ => some ⟨p.title, p.link, t.url, nome_canal⟩

/-- Innermost loop of `atualizar_playlists`:
`for p in playlists: playlists_sugeridas.append({...})`. -/
def loopPlaylists (nome_canal : String) (acc : List PlaylistRecord) :
    List PlaylistResult → Option (List PlaylistRecord)
  | [] => some acc
  | p :: ps => do
    let r ← mkRecord nome_canal p
    loopPlaylists nome_canal (acc ++ [r]) ps

/-- Middle loop of `atualizar_playlists`:
`for c in canais_encontrados: ... playlists = PlaylistsSearch(nome_canal, limit=5)...`. -/
def loopChannels (o : SearchOracle) (acc : List PlaylistRecord) :
    List ChannelResult → Option (List PlaylistRecord)
  | [] => some acc
  | c :: cs => do
    let acc2 ← loopPlaylists c.title acc (o.playlistsSearch c.title 5)
    loopChannels o acc2 cs

/-- Outer loop of `atualizar_playlists` over the seed channel names:
`for canal in canais: canais_encontrados = ChannelsSearch(canal, limit=3)...`. -/
def loopCanais (o : SearchOracle) (acc : List PlaylistRecord) :
    List String → Option (List PlaylistRecord)
  | [] => some acc
  | canal :: canais => do
    let acc2 ← loopChannels o acc (o.channelsSearch canal 3)
    loopCanais o acc2 canais

/-- Loop over `categorias_canais.items()` building `todas_playlists`. -/
def atualizarLoop (o : SearchOracle) (acc : List (String × List PlaylistRecord)) :
    List (String × List String) → Option (List (String × List PlaylistRecord))
  | [] => some acc
  | (categoria, canais) :: rest => do
    let l ← loopCanais o [] canais
    atualizarLoop o (acc ++ [(categoria, l)]) rest

/-- The in-memory mapping `todas_playlists` built by one run of
`atualizar_playlists` in `daily_updater.py` (before the file write). -/
def atualizar_playlists (o : SearchOracle) : Option (List (String × List PlaylistRecord)) :=
  atualizarLoop o [] categorias_canais

/-- Observable side effects of `daily_updater.py`. -/
inductive Effect where
  | fileWrite (name : String) (content : List (String × List PlaylistRecord))
  | consolePrint (msg : String)
deriving DecidableEq, Repr

/-- Whether an effect is a file write. -/
def Effect.isFileWrite : Effect → Bool
  | .fileWrite _ _ => true
  | .consolePrint _ => false

/-- One full run of `atualizar_playlists` including its effects: `now` is
the string `datetime.now().strftime("%Y-%m-%d_%H-%M-%S")`; the run writes
`playlists_{now}.json` with the collected mapping and prints a message. -/
def atualizar_playlists_run (o : SearchOracle) (now : String) : Option (List Effect) := do
  let todas ← atualizar_playlists o
  pure [Effect.fileWrite ("playlists_" ++ now ++ ".json") todas,
        Effect.consolePrint "Playlists atualizadas com sucesso!"]

/-- The response of the `/sugerir_playlists` endpoint: either the JSON
error object or the list of playlist records. -/
inductive Resposta where
  | erro (error : String)
  | playlists (l : List PlaylistRecord)
deriving DecidableEq, Repr

/-- Innermost loop of the endpoint: `for p in playlists:` with the guard
`if p['link'] not in seen_links:`; the state is the pair
(`seen_links`, `playlists_sugeridas`). -/
def sugerirLoopPlaylists (nome_canal : String) (seen : List String)
    (acc : List PlaylistRecord) :
    List PlaylistResult → Option (List String × List PlaylistRecord)
  | [] => some (seen, acc)
  | p :: ps =>
    if p.link ∈ seen then
      sugerirLoopPlaylists nome_canal seen acc ps
    else do
      let r ← mkRecord nome_canal p
      sugerirLoopPlaylists nome_canal (p.link :: seen) (acc ++ [r]) ps

/-- Middle loop of the endpoint: `for c in canais:`. -/
def sugerirLoopChannels (o : SearchOracle) (seen : List String)
    (acc : List PlaylistRecord) :
    List ChannelResult → Option (List String × List PlaylistRecord)
  | [] => some (seen, acc)
  | c :: cs => do
    let sa ← sugerirLoopPlaylists c.title seen acc (o.playlistsSearch c.title 5)
    sugerirLoopChannels o sa.1 sa.2 cs

/-- Outer loop of the endpoint: `for canal in categorias_canais[categoria]:`. -/
def sugerirLoopCanais (o : SearchOracle) (seen : List String)
    (acc : List PlaylistRecord) :
    List String → Option (List String × List PlaylistRecord)
  | [] => some (seen, acc)
  | canal :: canais => do
    let sa ← sugerirLoopChannels o seen acc (o.channelsSearch canal 3)
    sugerirLoopCanais o sa.1 sa.2 canais

/-- The endpoint `sugerir_playlists(categoria)` of
`sugerir_playlists.py.py`: returns the error object when `categoria` is
not a key of `categorias_canais`, otherwise runs the dedup loop starting
from an empty `seen_links` set and empty result list. -/
def sugerir_playlists (o : SearchOracle) (categoria : String) : Option Resposta :=
  match categorias_canais.lookup categoria with
  | none => some (Resposta.erro "Categoria não encontrada")
  | some canais => do
    let sa ← sugerirLoopCanais o [] [] canais
    pure (Resposta.playlists sa.2)

/-- Declarative view of the nested iteration: the (channel title, playlist
result) pairs visited by the triple loop, in iteration order. -/
def nestedPairs (o : SearchOracle) (canais : List String) : List (String × PlaylistResult) :=
  canais.flatMap fun canal =>
    (o.channelsSearch canal 3).flatMap fun c =>
      (o.playlistsSearch c.title 5).map fun p => (c.title, p)

/-- Building a record for every visited pair, in order, no deduplication. -/
def buildRecords : List (String × PlaylistResult) → Option (List PlaylistRecord)
  | [] => some []
  | (n, p) :: rest => do
    let r ← mkRecord n p
    let rs ← buildRecords rest
    pure (r :: rs)

/-- Building a record for the visited pairs with first-occurrence link
deduplication, threading the `seen` set; declarative counterpart of the
endpoint's loop. -/
def dedupPairsS (seen : List String) :
    List (String × PlaylistResult) → Option (List String × List PlaylistRecord)
  | [] => some (seen, [])
  | (n, p) :: rest =>
    if p.link ∈ seen then dedupPairsS seen rest
    else do
      let r ← mkRecord n p
      let sr ← dedupPairsS (p.link :: seen) rest
      pure (sr.1, r :: sr.2)

/-- First-occurrence deduplication by `link` on already-built records. -/
def dedupRecords (seen : List String) : List PlaylistRecord → List PlaylistRecord
  | [] => []
  | r :: rs =>
    if r.link ∈ seen then dedupRecords seen rs
    else r :: dedupRecords (r.link :: seen) rs

/-! ### Bridge lemmas: the imperative loops equal the declarative views -/

theorem buildRecords_append (l1 l2 : List (String × PlaylistResult)) :
    buildRecords (l1 ++ l2) =
      (buildRecords l1).bind fun r1 => (buildRecords l2).map fun r2 => r1 ++ r2 := by
  induction l1 with
  | nil => cases h : buildRecords l2 <;> simp [buildRecords, h]
  | cons np rest ih =>
    obtain ⟨n, p⟩ := np
    cases h : mkRecord n p <;> cases h1 : buildRecords rest <;>
      cases h2 : buildRecords l2 <;>
      simp [buildRecords, h, h1, h2, ih]

theorem loopPlaylists_eq (nome : String) (acc : List PlaylistRecord)
    (ps : List PlaylistResult) :
    loopPlaylists nome acc ps =
      (buildRecords (ps.map fun p => (nome, p))).map (acc ++ ·) := by
  induction ps generalizing acc with
  | nil => simp [loopPlaylists, buildRecords]
  | cons p ps ih =>
    cases h : mkRecord nome p with
    | none => simp [loopPlaylists, buildRecords, h]
    | some r =>
      simp only [loopPlaylists, buildRecords, h, Option.some_bind, List.map_cons, ih]
      cases h1 : buildRecords (ps.map fun p => (nome, p)) <;> simp

theorem loopChannels_eq (o : SearchOracle) (acc : List PlaylistRecord)
    (cs : List ChannelResult) :
    loopChannels o acc cs =
      (buildRecords (cs.flatMap fun c =>
        (o.playlistsSearch c.title 5).map fun p => (c.title, p))).map (acc ++ ·) := by
  induction cs generalizing acc with
  | nil => simp [loopChannels, buildRecords]
  | cons c cs ih =>
    simp only [loopChannels, loopPlaylists_eq, List.flatMap_cons, buildRecords_append]
    cases h1 : buildRecords ((o.playlistsSearch c.title 5).map fun p => (c.title, p)) with
    | none => simp
    | some r1 =>
      simp only [Option.map_some, Option.some_bind, ih]
      cases h2 : buildRecords (cs.flatMap fun c =>
          (o.playlistsSearch c.title 5).map fun p => (c.title, p)) <;> simp

theorem loopCanais_eq (o : SearchOracle) (acc : List PlaylistRecord)
    (canais : List String) :
    loopCanais o acc canais = (buildRecords (nestedPairs o canais)).map (acc ++ ·) := by
  induction canais generalizing acc with
  | nil => simp [loopCanais, buildRecords, nestedPairs]
  | cons canal canais ih =>
    simp only [loopCanais, loopChannels_eq, nestedPairs, List.flatMap_cons,
      buildRecords_append]
    cases h1 : buildRecords ((o.channelsSearch canal 3).flatMap fun c =>
        (o.playlistsSearch c.title 5).map fun p => (c.title, p)) with
    | none => simp
    | some r1 =>
      simp only [Option.map_some, Option.some_bind, ih, nestedPairs]
      cases h2 : buildRecords (canais.flatMap fun canal =>
          (o.channelsSearch canal 3).flatMap fun c =>
            (o.playlistsSearch c.title 5).map fun p => (c.title, p)) <;> simp

theorem dedupPairsS_append (l1 l2 : List (String × PlaylistResult)) (seen : List String) :
    dedupPairsS seen (l1 ++ l2) =
      (dedupPairsS seen l1).bind fun sr1 =>
        (dedupPairsS sr1.1 l2).map fun sr2 => (sr2.1, sr1.2 ++ sr2.2) := by
  induction l1 generalizing seen with
  | nil => cases h : dedupPairsS seen l2 <;> simp [dedupPairsS, h]
  | cons np rest ih =>
    obtain ⟨n, p⟩ := np
    by_cases hm : p.link ∈ seen
    · simp [dedupPairsS, hm, ih]
    · cases h : mkRecord n p with
      | none => simp [dedupPairsS, hm, h]
      | some r =>
        simp only [List.cons_append, dedupPairsS, if_neg hm, h, List.append_eq,
          Option.some_bind]
        rw [ih]
        cases h1 : dedupPairsS (p.link :: seen) rest with
        | none => simp
        | some sr1 =>
          simp only [Option.some_bind]
          cases h2 : dedupPairsS sr1.1 l2 <;> simp [h2]

theorem sugerirLoopPlaylists_eq (nome : String) (seen : List String)
    (acc : List PlaylistRecord) (ps : List PlaylistResult) :
    sugerirLoopPlaylists nome seen acc ps =
      (dedupPairsS seen (ps.map fun p => (nome, p))).map fun sr => (sr.1, acc ++ sr.2) := by
  induction ps generalizing seen acc with
  | nil => simp [sugerirLoopPlaylists, dedupPairsS]
  | cons p ps ih =>
    by_cases hm : p.link ∈ seen
    · simp [sugerirLoopPlaylists, dedupPairsS, hm, ih]
    · cases h : mkRecord nome p with
      | none => simp [sugerirLoopPlaylists, dedupPairsS, hm, h]
      | some r =>
        simp only [sugerirLoopPlaylists, dedupPairsS, hm, if_neg, h, Option.some_bind,
          List.map_cons, ih]
        cases h1 : dedupPairsS (p.link :: seen) (ps.map fun p => (nome, p)) <;> simp

theorem sugerirLoopChannels_eq (o : SearchOracle) (seen : List String)
    (acc : List PlaylistRecord) (cs : List ChannelResult) :
    sugerirLoopChannels o seen acc cs =
      (dedupPairsS seen (cs.flatMap fun c =>
        (o.playlistsSearch c.title 5).map fun p => (c.title, p))).map
        fun sr => (sr.1, acc ++ sr.2) := by
  induction cs generalizing seen acc with
  | nil => simp [sugerirLoopChannels, dedupPairsS]
  | cons c cs ih =>
    simp only [sugerirLoopChannels, sugerirLoopPlaylists_eq, List.flatMap_cons,
      dedupPairsS_append]
    cases h1 : dedupPairsS seen ((o.playlistsSearch c.title 5).map fun p => (c.title, p)) with
    | none => simp
    | some sr1 =>
      simp only [Option.map_some, Option.some_bind, ih]
      cases h2 : dedupPairsS sr1.1 (cs.flatMap fun c =>
          (o.playlistsSearch c.title 5).map fun p => (c.title, p)) <;> simp [h2]

theorem sugerirLoopCanais_eq (o : SearchOracle) (seen : List String)
    (acc : List PlaylistRecord) (canais : List String) :
    sugerirLoopCanais o seen acc canais =
      (dedupPairsS seen (nestedPairs o canais)).map fun sr => (sr.1, acc ++ sr.2) := by
  induction canais generalizing seen acc with
  | nil => simp [sugerirLoopCanais, dedupPairsS, nestedPairs]
  | cons canal canais ih =>
    simp only [sugerirLoopCanais, sugerirLoopChannels_eq, nestedPairs, List.flatMap_cons,
      dedupPairsS_append]
    cases h1 : dedupPairsS seen ((o.channelsSearch canal 3).flatMap fun c =>
        (o.playlistsSearch c.title 5).map fun p => (c.title, p)) with
    | none => simp
    | some sr1 =>
      simp only [Option.map_some, Option.some_bind, ih, nestedPairs]
      cases h2 : dedupPairsS sr1.1 (canais.flatMap fun canal =>
          (o.channelsSearch canal 3).flatMap fun c =>
            (o.playlistsSearch c.title 5).map fun p => (c.title, p)) <;> simp [h2]

/-- Characterization of one run of the batch updater: it succeeds exactly
when the undeduplicated record list of each of the two categories builds,
and the output pairs each category with that list, in mapping order. -/
theorem atualizar_playlists_eq (o : SearchOracle) :
    atualizar_playlists o =
      (buildRecords (nestedPairs o ["Canal AI", "AI News"])).bind fun l1 =>
        (buildRecords (nestedPairs o ["Marketing Total", "Growth Hacker"])).map fun l2 =>
          [("Inteligência Artificial", l1), ("Marketing Digital", l2)] := by
  simp only [atualizar_playlists, categorias_canais, atualizarLoop, loopCanais_eq]
  cases h1 : buildRecords (nestedPairs o ["Canal AI", "AI News"]) with
  | none => simp
  | some l1 =>
    simp only [Option.map_some, Option.some_bind, Option.pure_def]
    cases h2 : buildRecords (nestedPairs o ["Marketing Total", "Growth Hacker"]) <;>
      simp [atualizarLoop, h2]

/-- Characterization of the endpoint on a known category. -/
theorem sugerir_playlists_eq_of_lookup (o : SearchOracle) (categoria : String)
    (canais : List String) (h : categorias_canais.lookup categoria = some canais) :
    sugerir_playlists o categoria =
      (dedupPairsS [] (nestedPairs o canais)).map fun sr => Resposta.playlists sr.2 := by
  simp only [sugerir_playlists, h, sugerirLoopCanais_eq]
  cases h1 : dedupPairsS [] (nestedPairs o canais) <;> simp [h1]

/-- Characterization of the endpoint on an unknown category. -/
theorem sugerir_playlists_eq_of_not_lookup (o : SearchOracle) (categoria : String)
    (h : categorias_canais.lookup categoria = none) :
    sugerir_playlists o categoria = some (Resposta.erro "Categoria não encontrada") := by
  simp [sugerir_playlists, h]

/-! ### Invariants of record building and deduplication -/

theorem mkRecord_some_iff (n : String) (p : PlaylistResult) (r : PlaylistRecord) :
    mkRecord n p = some r ↔
      ∃ t ts, p.thumbnails = t :: ts ∧ r = ⟨p.title, p.link, t.url, n⟩ := by
  cases hp : p.thumbnails with
  | nil => simp [mkRecord, hp]
  | cons t ts =>
    simp only [mkRecord, hp, Option.some_inj]
    constructor
    · intro h
      exact ⟨t, ts, rfl, h.symm⟩
    · rintro ⟨t2, ts2, het, rfl⟩
      injection het with h1 h2
      rw [h1]

theorem mkRecord_link (n : String) (p : PlaylistResult) (r : PlaylistRecord)
    (h : mkRecord n p = some r) : r.link = p.link := by
  obtain ⟨t, ts, _, rfl⟩ := (mkRecord_some_iff n p r).mp h
  rfl

theorem mkRecord_isSome (n : String) (p : PlaylistResult) (h : p.thumbnails ≠ []) :
    ∃ r, mkRecord n p = some r := by
  cases hp : p.thumbnails with
  | nil => exact absurd hp h
  | cons t ts => exact ⟨⟨p.title, p.link, t.url, n⟩, by simp [mkRecord, hp]⟩

theorem buildRecords_length (l : List (String × PlaylistResult))
    (res : List PlaylistRecord) (h : buildRecords l = some res) :
    res.length = l.length := by
  induction l generalizing res with
  | nil =>
    simp only [buildRecords, Option.some_inj] at h
    simp [← h]
  | cons np rest ih =>
    obtain ⟨n, p⟩ := np
    simp only [buildRecords, Option.pure_def, Option.bind_eq_bind,
      Option.bind_eq_some] at h
    obtain ⟨r, hm, rs, hb, hres⟩ := h
    injection hres with hres
    rw [← hres]
    simp [ih rs hb]

theorem buildRecords_mem (l : List (String × PlaylistResult))
    (res : List PlaylistRecord) (h : buildRecords l = some res) :
    ∀ r ∈ res, ∃ np ∈ l, mkRecord np.1 np.2 = some r := by
  induction l generalizing res with
  | nil =>
    simp only [buildRecords, Option.some_inj] at h
    simp [← h]
  | cons np rest ih =>
    obtain ⟨n, p⟩ := np
    simp only [buildRecords, Option.pure_def, Option.bind_eq_bind,
      Option.bind_eq_some] at h
    obtain ⟨r0, hm, rs, hb, hres⟩ := h
    injection hres with hres
    intro r hr
    rw [← hres] at hr
    rcases List.mem_cons.mp hr with rfl | hr2
    · exact ⟨(n, p), List.mem_cons_self _ _, hm⟩
    · obtain ⟨np2, hnp2, hmk⟩ := ih rs hb r hr2
      exact ⟨np2, List.mem_cons_of_mem _ hnp2, hmk⟩

theorem buildRecords_isSome (l : List (String × PlaylistResult))
    (h : ∀ np ∈ l, np.2.thumbnails ≠ []) : ∃ res, buildRecords l = some res := by
  induction l with
  | nil => exact ⟨[], rfl⟩
  | cons np rest ih =>
    obtain ⟨n, p⟩ := np
    obtain ⟨r, hr⟩ := mkRecord_isSome n p (h (n, p) (List.mem_cons_self _ _))
    obtain ⟨rs, hrs⟩ := ih fun np hnp => h np (List.mem_cons_of_mem _ hnp)
    exact ⟨r :: rs, by simp [buildRecords, hr, hrs]⟩

theorem dedupPairsS_invariant (l : List (String × PlaylistResult)) :
    ∀ seen s res, dedupPairsS seen l = some (s, res) →
      (res.map PlaylistRecord.link).Nodup ∧
      ∀ r ∈ res, r.link ∉ seen ∧
        ∃ np, l.find? (fun np2 => np2.2.link == r.link) = some np ∧
          mkRecord np.1 np.2 = some r := by
  induction l with
  | nil =>
    intro seen s res h
    simp only [dedupPairsS, Option.some_inj, Prod.mk.injEq] at h
    simp [← h.2]
  | cons np rest ih =>
    obtain ⟨n, p⟩ := np
    intro seen s res h
    by_cases hm : p.link ∈ seen
    · rw [dedupPairsS, if_pos hm] at h
      obtain ⟨hnd, hinv⟩ := ih seen s res h
      refine ⟨hnd, fun r hr => ?_⟩
      obtain ⟨hnotin, np2, hfind, hmk⟩ := hinv r hr
      have hne : p.link ≠ r.link := fun he => hnotin (he ▸ hm)
      refine ⟨hnotin, np2, ?_, hmk⟩
      rw [List.find?_cons_of_neg _ (by simpa using hne), hfind]
    · rw [dedupPairsS, if_neg hm] at h
      simp only [Option.pure_def, Option.bind_eq_bind, Option.bind_eq_some] at h
      obtain ⟨r0, hm0, ⟨s2, res2⟩, hsr, hres⟩ := h
      rw [Option.some_inj, Prod.mk.injEq] at hres
      obtain ⟨rfl, rfl⟩ := hres
      obtain ⟨hnd2, hinv2⟩ := ih (p.link :: seen) s2 res2 hsr
      have hr0link : r0.link = p.link := mkRecord_link n p r0 hm0
      constructor
      · simp only [List.map_cons, List.nodup_cons]
        refine ⟨fun hmem => ?_, hnd2⟩
        obtain ⟨r2, hr2, hlink2⟩ := List.mem_map.mp hmem
        have := (hinv2 r2 hr2).1
        rw [hlink2, hr0link] at this
        exact this (List.mem_cons_self _ _)
      · intro r hr
        rcases List.mem_cons.mp hr with rfl | hr2
        · refine ⟨hr0link ▸ hm, (n, p), ?_, hm0⟩
          rw [List.find?_cons_of_pos _ (by simp [hr0link])]
        · obtain ⟨hnotin2, np2, hfind, hmk⟩ := hinv2 r hr2
          have hne : p.link ≠ r.link := fun he =>
            hnotin2 (he ▸ List.mem_cons_self _ _)
          refine ⟨fun hin => hnotin2 (List.mem_cons_of_mem _ hin), np2, ?_, hmk⟩
          rw [List.find?_cons_of_neg _ (by simpa using hne), hfind]

theorem dedupPairsS_length (l : List (String × PlaylistResult)) :
    ∀ seen s res, dedupPairsS seen l = some (s, res) → res.length ≤ l.length := by
  induction l with
  | nil =>
    intro seen s res h
    simp only [dedupPairsS, Option.some_inj, Prod.mk.injEq] at h
    simp [← h.2]
  | cons np rest ih =>
    obtain ⟨n, p⟩ := np
    intro seen s res h
    by_cases hm : p.link ∈ seen
    · rw [dedupPairsS, if_pos hm] at h
      exact (ih seen s res h).trans (Nat.le_succ _)
    · rw [dedupPairsS, if_neg hm] at h
      simp only [Option.pure_def, Option.bind_eq_bind, Option.bind_eq_some] at h
      obtain ⟨r0, hm0, ⟨s2, res2⟩, hsr, hres⟩ := h
      rw [Option.some_inj, Prod.mk.injEq] at hres
      obtain ⟨rfl, rfl⟩ := hres
      simpa using ih (p.link :: seen) s2 res2 hsr

theorem dedupPairsS_links_sublist (l : List (String × PlaylistResult)) :
    ∀ seen s res, dedupPairsS seen l = some (s, res) →
      (res.map PlaylistRecord.link).Sublist (l.map fun np => np.2.link) := by
  induction l with
  | nil =>
    intro seen s res h
    simp only [dedupPairsS, Option.some_inj, Prod.mk.injEq] at h
    simp [← h.2]
  | cons np rest ih =>
    obtain ⟨n, p⟩ := np
    intro seen s res h
    by_cases hm : p.link ∈ seen
    · rw [dedupPairsS, if_pos hm] at h
      exact (ih seen s res h).trans (List.sublist_cons_self _ _)
    · rw [dedupPairsS, if_neg hm] at h
      simp only [Option.pure_def, Option.bind_eq_bind, Option.bind_eq_some] at h
      obtain ⟨r0, hm0, ⟨s2, res2⟩, hsr, hres⟩ := h
      rw [Option.some_inj, Prod.mk.injEq] at hres
      obtain ⟨rfl, rfl⟩ := hres
      simp only [List.map_cons, mkRecord_link n p r0 hm0]
      exact (ih (p.link :: seen) s2 res2 hsr).cons_cons _

theorem dedupPairsS_isSome (l : List (String × PlaylistResult))
    (h : ∀ np ∈ l, np.2.thumbnails ≠ []) :
    ∀ seen, ∃ sr, dedupPairsS seen l = some sr := by
  induction l with
  | nil => exact fun seen => ⟨(seen, []), rfl⟩
  | cons np rest ih =>
    obtain ⟨n, p⟩ := np
    intro seen
    have hrest := fun np hnp => h np (List.mem_cons_of_mem _ hnp)
    by_cases hm : p.link ∈ seen
    · obtain ⟨sr, hsr⟩ := ih hrest seen
      exact ⟨sr, by rw [dedupPairsS, if_pos hm]; exact hsr⟩
    · obtain ⟨r, hr⟩ := mkRecord_isSome n p (h (n, p) (List.mem_cons_self _ _))
      obtain ⟨sr, hsr⟩ := ih hrest (p.link :: seen)
      exact ⟨(sr.1, r :: sr.2), by
        rw [dedupPairsS, if_neg hm]
        simp [hr, hsr]⟩

theorem dedupPairsS_of_buildRecords (l : List (String × PlaylistResult)) :
    ∀ seen lB, buildRecords l = some lB →
      ∃ s, dedupPairsS seen l = some (s, dedupRecords seen lB) := by
  induction l with
  | nil =>
    intro seen lB h
    simp only [buildRecords, Option.some_inj] at h
    exact ⟨seen, by simp [dedupPairsS, ← h, dedupRecords]⟩
  | cons np rest ih =>
    obtain ⟨n, p⟩ := np
    intro seen lB h
    simp only [buildRecords, Option.pure_def, Option.bind_eq_bind,
      Option.bind_eq_some] at h
    obtain ⟨r0, hm0, rs, hrs, hres⟩ := h
    injection hres with hres
    have hr0link : r0.link = p.link := mkRecord_link n p r0 hm0
    by_cases hm : p.link ∈ seen
    · obtain ⟨s, hs⟩ := ih seen rs hrs
      refine ⟨s, ?_⟩
      rw [dedupPairsS, if_pos hm, ← hres, dedupRecords, if_pos (hr0link ▸ hm)]
      exact hs
    · obtain ⟨s, hs⟩ := ih (p.link :: seen) rs hrs
      refine ⟨s, ?_⟩
      rw [dedupPairsS, if_neg hm, ← hres, dedupRecords, if_neg (hr0link ▸ hm)]
      simp [hm0, hr0link, hs]

/-! ### Provenance and size of the visited pairs -/

theorem nestedPairs_mem (o : SearchOracle) (canais : List String)
    (np : String × PlaylistResult) (h : np ∈ nestedPairs o canais) :
    ∃ canal ∈ canais, ∃ c ∈ o.channelsSearch canal 3,
      np.1 = c.title ∧ np.2 ∈ o.playlistsSearch c.title 5 := by
  simp only [nestedPairs, List.mem_flatMap, List.mem_map] at h
  obtain ⟨canal, hcanal, c, hc, p, hp, hnp⟩ := h
  exact ⟨canal, hcanal, c, hc, by rw [← hnp], by rw [← hnp]; exact hp⟩

/-- The upstream library honors the `limit` parameter: a search with
`limit=n` returns at most `n` results. -/
def honorsLimits (o : SearchOracle) : Prop :=
  ∀ q n, (o.channelsSearch q n).length ≤ n ∧ (o.playlistsSearch q n).length ≤ n

/-- Every upstream playlist result carries at least one thumbnail. -/
def thumbsOk (o : SearchOracle) : Prop :=
  ∀ q n, ∀ p ∈ o.playlistsSearch q n, p.thumbnails ≠ []

theorem flatChan_length_le (o : SearchOracle) (h : honorsLimits o)
    (cs : List ChannelResult) :
    (cs.flatMap fun c =>
      (o.playlistsSearch c.title 5).map fun p => (c.title, p)).length ≤ 5 * cs.length := by
  induction cs with
  | nil => simp
  | cons c cs ih =>
    simp only [List.flatMap_cons, List.length_append, List.length_map, List.length_cons]
    have := (h c.title 5).2
    omega

theorem nestedPairs_length_le (o : SearchOracle) (h : honorsLimits o)
    (canais : List String) :
    (nestedPairs o canais).length ≤ 15 * canais.length := by
  induction canais with
  | nil => simp [nestedPairs]
  | cons canal canais ih =>
    simp only [nestedPairs, List.flatMap_cons, List.length_append, List.length_cons] at *
    have h1 := flatChan_length_le o h (o.channelsSearch canal 3)
    have h2 := (h canal 3).1
    omega

theorem nestedPairs_thumbsOk (o : SearchOracle) (h : thumbsOk o) (canais : List String) :
    ∀ np ∈ nestedPairs o canais, np.2.thumbnails ≠ [] := by
  intro np hnp
  obtain ⟨canal, _, c, _, _, hp⟩ := nestedPairs_mem o canais np hnp
  exact h c.title 5 np.2 hp

theorem atualizar_isSome (o : SearchOracle) (h : thumbsOk o) :
    ∃ res, atualizar_playlists o = some res := by
  rw [atualizar_playlists_eq]
  obtain ⟨l1, h1⟩ := buildRecords_isSome _ (nestedPairs_thumbsOk o h ["Canal AI", "AI News"])
  obtain ⟨l2, h2⟩ :=
    buildRecords_isSome _ (nestedPairs_thumbsOk o h ["Marketing Total", "Growth Hacker"])
  exact ⟨[("Inteligência Artificial", l1), ("Marketing Digital", l2)],
    by rw [h1, Option.some_bind, h2]; rfl⟩

theorem sugerir_isSome (o : SearchOracle) (h : thumbsOk o) (categoria : String) :
    ∃ resp, sugerir_playlists o categoria = some resp := by
  cases hl : categorias_canais.lookup categoria with
  | none => exact ⟨_, sugerir_playlists_eq_of_not_lookup o categoria hl⟩
  | some canais =>
    rw [sugerir_playlists_eq_of_lookup o categoria canais hl]
    obtain ⟨sr, hsr⟩ :=
      dedupPairsS_isSome (nestedPairs o canais) (nestedPairs_thumbsOk o h canais) []
    exact ⟨_, by rw [hsr]; rfl⟩

/-! ### Concrete oracles for witnesses and counterexamples -/

/-- Oracle on which every search finds one channel `X` and one playlist
with link `L`: duplicate links arise across the seed channel names. -/
def oracleDup : SearchOracle where
  channelsSearch := fun _ _ => [⟨"X"⟩]
  playlistsSearch := fun _ _ => [⟨"t", "L", [⟨"u"⟩]⟩]

/-- Oracle on which every search comes back empty. -/
def oracleEmpty : SearchOracle where
  channelsSearch := fun _ _ => []
  playlistsSearch := fun _ _ => []

/-- Oracle whose single playlist result has an empty `thumbnails` list:
`p['thumbnails'][0]` raises on it. -/
def oracleNoThumb : SearchOracle where
  channelsSearch := fun _ _ => [⟨"X"⟩]
  playlistsSearch := fun _ _ => [⟨"t", "L", []⟩]

/-- The record every search on `oracleDup` yields. -/
def recDup : PlaylistRecord := ⟨"t", "L", "u", "X"⟩

/-! ### Structure of the two entry points' outputs -/

theorem atualizar_spec (o : SearchOracle) (res : List (String × List PlaylistRecord))
    (h : atualizar_playlists o = some res) :
    res.map Prod.fst = categorias_canais.map Prod.fst ∧
    ∀ categoria l, (categoria, l) ∈ res →
      ∃ canais, categorias_canais.lookup categoria = some canais ∧
        buildRecords (nestedPairs o canais) = some l := by
  rw [atualizar_playlists_eq] at h
  cases h1 : buildRecords (nestedPairs o ["Canal AI", "AI News"]) with
  | none => rw [h1] at h; simp at h
  | some l1 =>
    rw [h1, Option.some_bind] at h
    cases h2 : buildRecords (nestedPairs o ["Marketing Total", "Growth Hacker"]) with
    | none => rw [h2] at h; simp at h
    | some l2 =>
      rw [h2] at h
      injection h with h
      rw [← h]
      refine ⟨rfl, ?_⟩
      intro categoria l hmem
      rcases List.mem_cons.mp hmem with he | hmem2
      · obtain ⟨rfl, rfl⟩ := Prod.mk.injEq .. ▸ (Prod.mk.injEq _ _ _ _).mp he.symm
        exact ⟨["Canal AI", "AI News"], rfl, h1⟩
      · rcases List.mem_singleton.mp hmem2 with he2
        obtain ⟨rfl, rfl⟩ := (Prod.mk.injEq _ _ _ _).mp he2.symm
        exact ⟨["Marketing Total", "Growth Hacker"], rfl, h2⟩

theorem sugerir_lookup_of_playlists (o : SearchOracle) (categoria : String)
    (res : List PlaylistRecord)
    (h : sugerir_playlists o categoria = some (Resposta.playlists res)) :
    ∃ canais, categorias_canais.lookup categoria = some canais := by
  cases hl : categorias_canais.lookup categoria with
  | none =>
    rw [sugerir_playlists_eq_of_not_lookup o categoria hl] at h
    simp at h
  | some canais => exact ⟨canais, rfl⟩

theorem sugerir_spec (o : SearchOracle) (categoria : String) (canais : List String)
    (res : List PlaylistRecord)
    (hl : categorias_canais.lookup categoria = some canais)
    (h : sugerir_playlists o categoria = some (Resposta.playlists res)) :
    ∃ s, dedupPairsS [] (nestedPairs o canais) = some (s, res) := by
  rw [sugerir_playlists_eq_of_lookup o categoria canais hl] at h
  cases hd : dedupPairsS [] (nestedPairs o canais) with
  | none => rw [hd] at h; simp at h
  | some sr =>
    rw [hd] at h
    simp only [Option.map_some'] at h
    injection h with h
    injection h with h
    exact ⟨sr.1, by rw [← h]⟩

theorem record_provenance (o : SearchOracle) (canais : List String) (r : PlaylistRecord)
    (hnp : ∃ np ∈ nestedPairs o canais, mkRecord np.1 np.2 = some r) :
    ∃ canal ∈ canais, ∃ c ∈ o.channelsSearch canal 3,
      ∃ p ∈ o.playlistsSearch c.title 5, ∃ t ts,
        p.thumbnails = t :: ts ∧ r = ⟨p.title, p.link, t.url, c.title⟩ := by
  obtain ⟨np, hmem, hmk⟩ := hnp
  obtain ⟨canal, hcanal, c, hc, h1, h2⟩ := nestedPairs_mem o canais np hmem
  obtain ⟨t, ts, hts, hr⟩ := (mkRecord_some_iff np.1 np.2 r).mp hmk
  exact ⟨canal, hcanal, c, hc, np.2, h2, t, ts, hts, by rw [hr, h1]⟩

/-! ### The claims -/

/-- Claim C1, counterexample: on the oracle `oracleDup` the batch updater
stores, under the category `Inteligência Artificial`, a list whose two
records share the link `L`: the per-category list built by
`atualizar_playlists` is NOT deduplicated. -/
theorem c1_counterexample :
    atualizar_playlists oracleDup =
      some [("Inteligência Artificial", [recDup, recDup]),
            ("Marketing Digital", [recDup, recDup])] ∧
    ¬ ([recDup, recDup].map PlaylistRecord.link).Nodup :=
  ⟨by decide, by decide⟩

/-- Claim C1, amended: for every category and any upstream results, the
per-category list built by `atualizar_playlists` is the full flattened
record list in nested iteration order, with no deduplication (duplicate
links are all retained; only the query endpoint deduplicates). -/
theorem c1_batch_no_dedup (o : SearchOracle) (res : List (String × List PlaylistRecord))
    (h : atualizar_playlists o = some res) :
    ∀ categoria l, (categoria, l) ∈ res →
      ∃ canais, categorias_canais.lookup categoria = some canais ∧
        buildRecords (nestedPairs o canais) = some l :=
  (atualizar_spec o res h).2

/-- Witness for `c1_batch_no_dedup` at `oracleDup`: the stored list
`[recDup, recDup]` is exactly the undeduplicated flatten. -/
theorem c1_witness :
    ∃ canais, categorias_canais.lookup "Marketing Digital" = some canais ∧
      buildRecords (nestedPairs oracleDup canais) = some [recDup, recDup] :=
  c1_batch_no_dedup oracleDup
    [("Inteligência Artificial", [recDup, recDup]),
     ("Marketing Digital", [recDup, recDup])]
    (by decide) "Marketing Digital" [recDup, recDup] (by decide)

/-- Claim C2: the list returned by the endpoint has pairwise-distinct
links, and each returned record is built from the first playlist in
nested iteration order carrying its link. -/
theorem c2_endpoint_dedup (o : SearchOracle) (categoria : String)
    (res : List PlaylistRecord)
    (h : sugerir_playlists o categoria = some (Resposta.playlists res)) :
    (res.map PlaylistRecord.link).Nodup ∧
    ∀ r ∈ res, ∃ canais np,
      categorias_canais.lookup categoria = some canais ∧
      (nestedPairs o canais).find? (fun np2 => np2.2.link == r.link) = some np ∧
      mkRecord np.1 np.2 = some r := by
  obtain ⟨canais, hl⟩ := sugerir_lookup_of_playlists o categoria res h
  obtain ⟨s, hd⟩ := sugerir_spec o categoria canais res hl h
  obtain ⟨hnd, hinv⟩ := dedupPairsS_invariant (nestedPairs o canais) [] s res hd
  refine ⟨hnd, fun r hr => ?_⟩
  obtain ⟨-, np, hfind, hmk⟩ := hinv r hr
  exact ⟨canais, np, hl, hfind, hmk⟩

/-- Witness for `c2_endpoint_dedup` at `oracleDup`. -/
theorem c2_witness :
    (([recDup].map PlaylistRecord.link)).Nodup ∧
    ∀ r ∈ [recDup], ∃ canais np,
      categorias_canais.lookup "Marketing Digital" = some canais ∧
      (nestedPairs oracleDup canais).find? (fun np2 => np2.2.link == r.link) = some np ∧
      mkRecord np.1 np.2 = some r :=
  c2_endpoint_dedup oracleDup "Marketing Digital" [recDup] (by decide)

/-- Claim C3: the endpoint returns the error object exactly when the
category is not a key of `categorias_canais`, whose keys are
`Inteligência Artificial` and `Marketing Digital`; on an unknown category
the response does not depend on the upstream oracle at all. -/
theorem c3_unknown_category (o : SearchOracle) (categoria : String) :
    (sugerir_playlists o categoria = some (Resposta.erro "Categoria não encontrada") ↔
      categorias_canais.lookup categoria = none) ∧
    categorias_canais.map Prod.fst = ["Inteligência Artificial", "Marketing Digital"] ∧
    (categorias_canais.lookup categoria = none →
      ∀ o2, sugerir_playlists o2 categoria = sugerir_playlists o categoria) := by
  refine ⟨⟨?_, fun hl => sugerir_playlists_eq_of_not_lookup o categoria hl⟩, rfl, ?_⟩
  · intro h
    cases hl : categorias_canais.lookup categoria with
    | none => rfl
    | some canais =>
      rw [sugerir_playlists_eq_of_lookup o categoria canais hl] at h
      cases hd : dedupPairsS [] (nestedPairs o canais) with
      | none => rw [hd] at h; simp at h
      | some sr => rw [hd] at h; simp at h
  · intro hl o2
    rw [sugerir_playlists_eq_of_not_lookup o categoria hl,
      sugerir_playlists_eq_of_not_lookup o2 categoria hl]

/-- Witness for `c3_unknown_category`: the unknown category `Esportes`
gets the error object. -/
theorem c3_witness :
    sugerir_playlists oracleEmpty "Esportes" =
      some (Resposta.erro "Categoria não encontrada") :=
  (c3_unknown_category oracleEmpty "Esportes").1.mpr (by decide)

/-- Claim C4: when the upstream library honors the requested limits
(`limit=3` for channels, `limit=5` for playlists), a category with `n`
seed channel names yields at most `15 * n` records: both the endpoint's
returned list and the batch updater's per-category list are so bounded. -/
theorem c4_limit_bound (o : SearchOracle) (h : honorsLimits o) :
    (∀ categoria canais res, categorias_canais.lookup categoria = some canais →
      sugerir_playlists o categoria = some (Resposta.playlists res) →
      res.length ≤ 15 * canais.length) ∧
    (∀ res, atualizar_playlists o = some res →
      ∀ categoria l, (categoria, l) ∈ res →
        ∃ canais, categorias_canais.lookup categoria = some canais ∧
          l.length ≤ 15 * canais.length) := by
  constructor
  · intro categoria canais res hl hs
    obtain ⟨s, hd⟩ := sugerir_spec o categoria canais res hl hs
    exact (dedupPairsS_length _ [] s res hd).trans (nestedPairs_length_le o h canais)
  · intro res hres categoria l hmem
    obtain ⟨canais, hl, hb⟩ := (atualizar_spec o res hres).2 categoria l hmem
    refine ⟨canais, hl, ?_⟩
    rw [buildRecords_length _ l hb]
    exact nestedPairs_length_le o h canais

/-- Witness for `c4_limit_bound` at the empty oracle. -/
theorem c4_witness :
    ([] : List PlaylistRecord).length ≤
      15 * (["Marketing Total", "Growth Hacker"] : List String).length :=
  (c4_limit_bound oracleEmpty (fun q n => ⟨Nat.zero_le n, Nat.zero_le n⟩)).1
    "Marketing Digital" ["Marketing Total", "Growth Hacker"] [] (by decide) (by decide)

/-- Claim C5: the batch output's keys are exactly the keys of
`categorias_canais` in mapping order (so every category appears, even
with an empty list), and each key maps to the records collected from its
seed channel names by the triple loop. -/
theorem c5_grouped_output (o : SearchOracle) (res : List (String × List PlaylistRecord))
    (h : atualizar_playlists o = some res) :
    res.map Prod.fst = categorias_canais.map Prod.fst ∧
    ∀ categoria l, (categoria, l) ∈ res →
      ∃ canais, categorias_canais.lookup categoria = some canais ∧
        buildRecords (nestedPairs o canais) = some l ∧
        loopCanais o [] canais = some l := by
  obtain ⟨hk, hmem⟩ := atualizar_spec o res h
  refine ⟨hk, fun categoria l hm => ?_⟩
  obtain ⟨canais, hl, hb⟩ := hmem categoria l hm
  exact ⟨canais, hl, hb, by rw [loopCanais_eq, hb]; simp⟩

/-- Witness for `c5_grouped_output` at the empty oracle: the category
appears with an empty list. -/
theorem c5_witness :
    ∃ canais, categorias_canais.lookup "Inteligência Artificial" = some canais ∧
      buildRecords (nestedPairs oracleEmpty canais) = some [] ∧
      loopCanais oracleEmpty [] canais = some [] :=
  (c5_grouped_output oracleEmpty
    [("Inteligência Artificial", []), ("Marketing Digital", [])] (by decide)).2
    "Inteligência Artificial" [] (by decide)

/-- Claim C6: a successful run of `atualizar_playlists` has exactly one
file write, to `playlists_{now}.json`, holding the collected mapping; the
only other effect is the console print, and `categorias_canais` is the
unchanged hard-coded constant. -/
theorem c6_single_file_write (o : SearchOracle) (now : String) (effs : List Effect)
    (h : atualizar_playlists_run o now = some effs) :
    ∃ todas, atualizar_playlists o = some todas ∧
      effs = [Effect.fileWrite ("playlists_" ++ now ++ ".json") todas,
              Effect.consolePrint "Playlists atualizadas com sucesso!"] ∧
      effs.filter Effect.isFileWrite =
        [Effect.fileWrite ("playlists_" ++ now ++ ".json") todas] ∧
      categorias_canais =
        [("Inteligência Artificial", ["Canal AI", "AI News"]),
         ("Marketing Digital", ["Marketing Total", "Growth Hacker"])] := by
  simp only [atualizar_playlists_run, Option.pure_def, Option.bind_eq_bind,
    Option.bind_eq_some] at h
  obtain ⟨todas, ht, heffs⟩ := h
  injection heffs with heffs
  exact ⟨todas, ht, heffs.symm, by rw [← heffs]; rfl, rfl⟩

/-- Witness for `c6_single_file_write` at the empty oracle. -/
theorem c6_witness :
    ∃ todas, atualizar_playlists oracleEmpty = some todas ∧
      ([Effect.fileWrite ("playlists_" ++ "2025-01-01_00-00-00" ++ ".json")
          [("Inteligência Artificial", []), ("Marketing Digital", [])],
        Effect.consolePrint "Playlists atualizadas com sucesso!"] : List Effect) =
        [Effect.fileWrite ("playlists_" ++ "2025-01-01_00-00-00" ++ ".json") todas,
         Effect.consolePrint "Playlists atualizadas com sucesso!"] ∧
      ([Effect.fileWrite ("playlists_" ++ "2025-01-01_00-00-00" ++ ".json")
          [("Inteligência Artificial", []), ("Marketing Digital", [])],
        Effect.consolePrint "Playlists atualizadas com sucesso!"] : List Effect).filter
          Effect.isFileWrite =
        [Effect.fileWrite ("playlists_" ++ "2025-01-01_00-00-00" ++ ".json") todas] ∧
      categorias_canais =
        [("Inteligência Artificial", ["Canal AI", "AI News"]),
         ("Marketing Digital", ["Marketing Total", "Growth Hacker"])] :=
  c6_single_file_write oracleEmpty "2025-01-01_00-00-00"
    [Effect.fileWrite ("playlists_" ++ "2025-01-01_00-00-00" ++ ".json")
       [("Inteligência Artificial", []), ("Marketing Digital", [])],
     Effect.consolePrint "Playlists atualizadas com sucesso!"] (by decide)

/-- Claim C7: both entry points visit the upstream results in the same
nested iteration order: the batch loop equals the record build over the
nested flatten, the endpoint loop equals the deduplicating build over the
same flatten, and the endpoint keeps its records in that order (its link
sequence is a sublist of the visited link sequence). -/
theorem c7_iteration_order (o : SearchOracle) :
    (∀ canais acc, loopCanais o acc canais =
      (buildRecords (nestedPairs o canais)).map (fun l => acc ++ l)) ∧
    (∀ canais seen acc, sugerirLoopCanais o seen acc canais =
      (dedupPairsS seen (nestedPairs o canais)).map fun sr => (sr.1, acc ++ sr.2)) ∧
    (∀ canais seen s res, dedupPairsS seen (nestedPairs o canais) = some (s, res) →
      (res.map PlaylistRecord.link).Sublist
        ((nestedPairs o canais).map fun np => np.2.link)) :=
  ⟨fun canais acc => loopCanais_eq o acc canais,
   fun canais seen acc => sugerirLoopCanais_eq o seen acc canais,
   fun canais seen s res hd => dedupPairsS_links_sublist (nestedPairs o canais) seen s res hd⟩

/-- Witness for `c7_iteration_order` at `oracleDup`. -/
theorem c7_witness :
    ([recDup].map PlaylistRecord.link).Sublist
      ((nestedPairs oracleDup ["Marketing Total", "Growth Hacker"]).map
        fun np => np.2.link) :=
  (c7_iteration_order oracleDup).2.2 ["Marketing Total", "Growth Hacker"]
    [] ["L"] [recDup] (by decide)

/-- Claim C8: on identical upstream responses, the endpoint's list for a
category equals the batch updater's per-category list after keeping only
the first occurrence of each link. -/
theorem c8_refinement (o : SearchOracle) (categoria : String) (canais : List String)
    (todas : List (String × List PlaylistRecord)) (lB res : List PlaylistRecord)
    (hl : categorias_canais.lookup categoria = some canais)
    (hb : atualizar_playlists o = some todas)
    (hmem : (categoria, lB) ∈ todas)
    (hs : sugerir_playlists o categoria = some (Resposta.playlists res)) :
    res = dedupRecords [] lB := by
  obtain ⟨canais2, hl2, hbuild⟩ := (atualizar_spec o todas hb).2 categoria lB hmem
  rw [hl] at hl2
  injection hl2 with hl2
  subst hl2
  obtain ⟨s1, hd1⟩ := dedupPairsS_of_buildRecords _ [] lB hbuild
  obtain ⟨s2, hd2⟩ := sugerir_spec o categoria canais res hl hs
  rw [hd1] at hd2
  injection hd2 with hd2
  exact ((Prod.mk.injEq _ _ _ _).mp hd2).2.symm

/-- Witness for `c8_refinement` at `oracleDup`: the endpoint's `[recDup]`
is the batch list `[recDup, recDup]` deduplicated. -/
theorem c8_witness : [recDup] = dedupRecords [] [recDup, recDup] :=
  c8_refinement oracleDup "Marketing Digital" ["Marketing Total", "Growth Hacker"]
    [("Inteligência Artificial", [recDup, recDup]),
     ("Marketing Digital", [recDup, recDup])]
    [recDup, recDup] [recDup] (by decide) (by decide) (by decide) (by decide)

/-- Claim C9: every emitted record, in either entry point, has exactly
the four fields `titulo`, `link`, `thumbnail`, `canal`: `titulo` and
`link` copied from the upstream playlist result, `thumbnail` the `url`
of the first element of its `thumbnails`, and `canal` the title of the
channel record found by the channel search. -/
theorem c9_record_fields (o : SearchOracle) :
    (∀ todas, atualizar_playlists o = some todas →
      ∀ cl ∈ todas, ∀ r ∈ cl.2, ∃ canais,
        categorias_canais.lookup cl.1 = some canais ∧
        ∃ canal ∈ canais, ∃ c ∈ o.channelsSearch canal 3,
          ∃ p ∈ o.playlistsSearch c.title 5, ∃ t ts,
            p.thumbnails = t :: ts ∧ r = ⟨p.title, p.link, t.url, c.title⟩) ∧
    (∀ categoria res, sugerir_playlists o categoria = some (Resposta.playlists res) →
      ∀ r ∈ res, ∃ canais,
        categorias_canais.lookup categoria = some canais ∧
        ∃ canal ∈ canais, ∃ c ∈ o.channelsSearch canal 3,
          ∃ p ∈ o.playlistsSearch c.title 5, ∃ t ts,
            p.thumbnails = t :: ts ∧ r = ⟨p.title, p.link, t.url, c.title⟩) := by
  constructor
  · intro todas h cl hcl r hr
    obtain ⟨canais, hlk, hb⟩ := (atualizar_spec o todas h).2 cl.1 cl.2
      (by rw [Prod.mk.eta]; exact hcl)
    obtain ⟨np, hmemnp, hmk⟩ := buildRecords_mem _ _ hb r hr
    exact ⟨canais, hlk, record_provenance o canais r ⟨np, hmemnp, hmk⟩⟩
  · intro categoria res h r hr
    obtain ⟨canais, hlk⟩ := sugerir_lookup_of_playlists o categoria res h
    obtain ⟨s, hd⟩ := sugerir_spec o categoria canais res hlk h
    obtain ⟨-, hinv⟩ := dedupPairsS_invariant _ [] s res hd
    obtain ⟨-, np, hfind, hmk⟩ := hinv r hr
    exact ⟨canais, hlk,
      record_provenance o canais r ⟨np, List.mem_of_find?_eq_some hfind, hmk⟩⟩

/-- Witness for `c9_record_fields` at `oracleDup`. -/
theorem c9_witness :
    ∃ canais, categorias_canais.lookup "Marketing Digital" = some canais ∧
      ∃ canal ∈ canais, ∃ c ∈ oracleDup.channelsSearch canal 3,
        ∃ p ∈ oracleDup.playlistsSearch c.title 5, ∃ t ts,
          p.thumbnails = t :: ts ∧ recDup = ⟨p.title, p.link, t.url, c.title⟩ :=
  (c9_record_fields oracleDup).2 "Marketing Digital" [recDup] (by decide)
    recDup (by decide)

/-- Claim C10: when every upstream playlist result has a non-empty
`thumbnails` list, both entry points complete (the unguarded
`p['thumbnails'][0]['url']` never fails); on an oracle returning a
playlist with empty `thumbnails`, both fail. -/
theorem c10_thumbnail_safety :
    (∀ o, thumbsOk o →
      (∃ res, atualizar_playlists o = some res) ∧
      ∀ categoria, ∃ resp, sugerir_playlists o categoria = some resp) ∧
    atualizar_playlists oracleNoThumb = none ∧
    sugerir_playlists oracleNoThumb "Marketing Digital" = none :=
  ⟨fun o h => ⟨atualizar_isSome o h, sugerir_isSome o h⟩, by decide, by decide⟩

/-- Witness for `c10_thumbnail_safety` at `oracleDup`, whose playlist
results all carry a thumbnail. -/
theorem c10_witness :
    (∃ res, atualizar_playlists oracleDup = some res) ∧
    ∀ categoria, ∃ resp, sugerir_playlists oracleDup categoria = some resp :=
  c10_thumbnail_safety.1 oracleDup (by
    intro q n p hp
    simp only [oracleDup, List.mem_singleton] at hp
    subst hp
    simp)

end Fxsfzx
